import Mathlib

/-!
FooBar sequence generator

A shallow embedding of `foobar/foobar.go` (`Sequence`) and of the helper
`sequencesEqual` of `foobar/foobar_test.go`, together with the properties of
the generated sequence.

Modelling conventions

* Go's `int` is modelled by `Int`.  The only arithmetic in `Sequence` is
  `n := i + 1` for a slice index `0 ≤ i < length`, hence `n ≤ length`, which
  cannot leave the range of `int`; no wrap-around is involved.
* Go's `%` truncates towards zero: it is `Int.tmod`.
* A slice `[]string` is a `List String`; the `nil` slice is the empty list.
* `make([]string, length)` panics when the slice is too large to allocate.
  `makeslice` models it, the allocation limit of the runtime being a
  parameter; `SequenceCall` and `foobarHandlerCall` are the function and the
  handler with that panic, `none` standing for a call that panics.
  `Sequence` and `foobarHandler` are the values they return when `make`
  succeeds (`SequenceCall_of_fits`, `foobarHandlerCall_of_fits`).
* An `error` is an `Option String` holding the message, `none` being `nil`.
* A multiple-value return `([]string, error)` is a pair.
-/

namespace Foobar

/-- Go's `strconv.Itoa`: the base-10 representation of an integer, with a
leading minus sign for negative values. -/
def Itoa (n : Int) : String :=
  match n with
  | Int.ofNat m => Nat.repr m
  | Int.negSucc m => "-" ++ Nat.repr (m + 1)

/-- The `switch` statement of `Sequence` (foobar.go, lines 20-29): the value
stored in `seq[i]` for `n = i + 1`.  Cases are tried in order, the first
one whose condition holds is taken. -/
def switchToken (n : Int) : String :=
  if n.tmod 3 = 0 ∧ n.tmod 5 = 0 then "foobar"
  else if n.tmod 7 = 0 then "bar"
  else if n.tmod 3 = 0 then "foo"
  else Itoa n

/-- One iteration of `for i := range seq` (foobar.go, lines 18-30): computes
`n := i + 1` and assigns `seq[i]`. -/
def loopBody (seq : List String) (i : Nat) : List String :=
  let n : Int := (i : Int) + 1
  seq.set i (switchToken n)

/-- The values returned by the function `Sequence` of foobar.go when `make`
succeeds.  A negative length returns `nil` with the error
`length is negative`; otherwise `make([]string, length)` allocates `length`
empty strings and the loop overwrites index `0, 1, ..., len(seq) - 1` in
turn.  The call with the panic of `make` is `SequenceCall`. -/
def Sequence (length : Int) : List String × Option String :=
  if length < 0 then
    ([], some "length is negative")
  else
    let seq : List String := List.replicate length.toNat ""
    ((List.range seq.length).foldl loopBody seq, none)

/-- The loop of `sequencesEqual` (foobar_test.go, lines 58-62) over the
indices still to visit: returns `false` at the first index where the two
slices differ. -/
def sequencesEqualLoop (a b : List String) : List Nat → Bool
  | [] => true
  | i :: rest =>
    if a.getD i "" ≠ b.getD i "" then false
    else sequencesEqualLoop a b rest

/-- The helper `sequencesEqual` of foobar_test.go: `false` when the lengths
differ, otherwise the element-wise comparison over `range a`. -/
def sequencesEqual (a b : List String) : Bool :=
  if a.length ≠ b.length then false
  else sequencesEqualLoop a b (List.range a.length)

/-- The element of a sequence at the 1-indexed position `i`, when there is
one (`none` for `i < 1` and for `i` beyond the end). -/
def elementAt (seq : List String) (i : Int) : Option String :=
  if 1 ≤ i then seq[(i - 1).toNat]? else none

/-- The rule set of the doc comment of `Sequence` (foobar.go, lines 8-10):
multiples of both 3 and 5 give `foobar`, other multiples of 5 give `bar`,
other multiples of 3 give `foo`, every other number its decimal string. -/
def docToken (n : Int) : String :=
  if n % 3 = 0 ∧ n % 5 = 0 then "foobar"
  else if n % 5 = 0 then "bar"
  else if n % 3 = 0 then "foo"
  else Itoa n

/-! Section: The HTTP handlers of main.go

Further modelling conventions

* A request is reduced to what the handlers read: the values returned by
  `r.URL.Query()`, Go's `url.Values` (`map[string][]string`), as an
  association list.
* An `http.ResponseWriter` is the state `(status, body)`: `status` is `none`
  until the header is written, `body` is what has been written so far.
  Response headers other than the status are not part of the model.
* The handlers also report the arguments with which they called
  `foobar.Sequence`, so that "the generator is not invoked" can be stated.
-/

/-- Go's `url.Values`. -/
abbrev Values := List (String × List String)

/-- Go's `url.Values.Get`: the first value associated with the key, or the
empty string when the key has no value. -/
def Values.Get (v : Values) (key : String) : String :=
  match List.lookup key v with
  | some (x :: _) => x
  | _ => ""

/-- The part of an `http.Request` read by the handlers: the parsed query. -/
structure Request where
  /-- The values returned by `r.URL.Query()`. -/
  query : Values

/-- The state of an `http.ResponseWriter`. -/
structure ResponseWriter where
  /-- The status code, once the header has been written. -/
  status : Option Nat
  /-- The bytes written to the body so far. -/
  body : String
deriving DecidableEq

/-- The writer a handler receives: no header written, empty body. -/
def freshWriter : ResponseWriter := ⟨none, ""⟩

/-- Go's `http.StatusOK`. -/
def StatusOK : Nat := 200

/-- Go's `http.StatusBadRequest`. -/
def StatusBadRequest : Nat := 400

/-- Go's `ResponseWriter.WriteHeader`: fixes the status code; a second call
does not change it. -/
def ResponseWriter.WriteHeader (w : ResponseWriter) (code : Nat) : ResponseWriter :=
  match w.status with
  | none => ⟨some code, w.body⟩
  | some _ => w

/-- Go's `ResponseWriter.Write`: writes the header with `http.StatusOK` when
it has not been written yet, then appends the data to the body. -/
def ResponseWriter.Write (w : ResponseWriter) (data : String) : ResponseWriter :=
  ⟨(w.WriteHeader StatusOK).status, (w.WriteHeader StatusOK).body ++ data⟩

/-- Go's `fmt.Fprintln(w, s)` for one string operand: writes the string
followed by a newline. -/
def Fprintln (w : ResponseWriter) (s : String) : ResponseWriter :=
  w.Write (s ++ "\n")

/-- Go's `http.Error(w, error, code)`: `w.WriteHeader(code)` followed by
`fmt.Fprintln(w, error)`. -/
def httpError (w : ResponseWriter) (error : String) (code : Nat) : ResponseWriter :=
  Fprintln (w.WriteHeader code) error

/-- The loop by which `fmt` prints the elements of a slice: every element
but the first (index `i > 0`) is preceded by one space. -/
def printElems (buf : String) (i : Nat) : List String → String
  | [] => buf
  | a :: rest => printElems ((if 0 < i then buf ++ " " else buf) ++ a) (i + 1) rest

/-- Go's `fmt.Sprintf("%s", seq)` for a `[]string`: an opening bracket, the
elements printed by `printElems`, a closing bracket. -/
def Sprintf_s (seq : List String) : String :=
  printElems "[" 0 seq ++ "]"

/-- Go's `fmt.Fprintf(w, "%s", seq)` for a `[]string`. -/
def Fprintf_s (w : ResponseWriter) (seq : List String) : ResponseWriter :=
  w.Write (Sprintf_s seq)

/-- The value of a string of decimal digits, most significant first. -/
def digitsValue (ds : List Char) : Nat :=
  ds.foldl (fun n c => n * 10 + (c.toNat - 48)) 0

/-- Go's `strconv.Atoi` for a 64-bit `int`: an optional sign `+` or `-`
followed by at least one decimal digit and nothing else, denoting a value
between `-2^63` and `2^63 - 1`.  `none` stands for a non-nil error
(invalid syntax or value out of range), whose value the handler does not
inspect. -/
def Atoi (s : String) : Option Int :=
  let cs : List Char := s.data
  let neg : Bool := decide (cs.head? = some '-')
  let ds : List Char :=
    if cs.head? = some '-' ∨ cs.head? = some '+' then cs.tail else cs
  if ds = [] then none
  else if ds.all Char.isDigit = false then none
  else if neg then
    if 2 ^ 63 < digitsValue ds then none else some (-(digitsValue ds : Int))
  else
    if 2 ^ 63 ≤ digitsValue ds then none else some (digitsValue ds : Int)

/-- The handler `foobarHandler` of main.go when the `make` of
`foobar.Sequence` succeeds.  The second component lists the arguments of the
calls made to `foobar.Sequence`.  The handler with the panic of `make` is
`foobarHandlerCall`. -/
def foobarHandler (w : ResponseWriter) (r : Request) : ResponseWriter × List Int :=
  let lengthParam : String := r.query.Get "length"
  if lengthParam = "" then
    (httpError w "missing parameter: length" StatusBadRequest, [])
  else
    match Atoi lengthParam with
    | none => (httpError w "invalid length" StatusBadRequest, [])
    | some length =>
      match Sequence length with
      | (_, some err) =>
        (httpError w ("failed to compute sequence: " ++ err) StatusBadRequest, [length])
      | (seq, none) => (Fprintf_s w seq, [length])

/-- The handler `healthHandler` of main.go. -/
def healthHandler (w : ResponseWriter) (_r : Request) : ResponseWriter :=
  Fprintln w "Server is healthy :)"

/-- Reading a success body back: the enclosing brackets are stripped (first
and last character) and the rest is split at every space. -/
def splitBody (body : String) : List String :=
  (((body.data.drop 1).dropLast).splitOn ' ').map String.mk

/-! Section: Allocation failure

`make([]string, length)` compiles to a call of the runtime function
`makeslice`, which panics (`makeslice: len out of range`) when the length is
negative, when the size in bytes overflows a `uintptr`, or when it exceeds
the allocation limit `maxAlloc` of the runtime.  `foobar.Sequence` does not
recover, so the panic ends the call; in `foobarHandler` nothing has been
written to the response at that point.
-/

/-- The size in bytes of a `string` value (pointer and length) on a 64-bit
platform. -/
def stringSize : Int := 16

/-- The constant `maxAlloc` of the Go runtime on 64-bit platforms with 48
bits of heap address space: the largest size an allocation can have. -/
def maxAlloc64 : Nat := 2 ^ 48

/-- Go's `make([]string, length)` for a 64-bit `uintptr` and an allocation
limit of `maxAlloc` bytes: `none` is the panic of `makeslice`, otherwise the
slice holds `length` empty strings. -/
def makeslice (maxAlloc : Nat) (length : Int) : Option (List String) :=
  if length < 0 ∨ 2 ^ 64 ≤ stringSize * length ∨ (maxAlloc : Int) < stringSize * length then
    none
  else
    some (List.replicate length.toNat "")

/-- A call of the function `Sequence` of foobar.go under the allocation
limit `maxAlloc`: the guard on negative lengths, then `make`, whose panic
ends the call (`none`), then the loop over `range seq`. -/
def SequenceCall (maxAlloc : Nat) (length : Int) : Option (List String × Option String) :=
  if length < 0 then
    some ([], some "length is negative")
  else
    match makeslice maxAlloc length with
    | none => none
    | some seq => some ((List.range seq.length).foldl loopBody seq, none)

/-- A call of the handler `foobarHandler` of main.go under the allocation
limit `maxAlloc`: `none` when `foobar.Sequence` panics, in which case the
handler has written nothing.  The second component lists the arguments of
the calls made to `foobar.Sequence`. -/
def foobarHandlerCall (maxAlloc : Nat) (w : ResponseWriter) (r : Request) :
    Option (ResponseWriter × List Int) :=
  let lengthParam : String := r.query.Get "length"
  if lengthParam = "" then
    some (httpError w "missing parameter: length" StatusBadRequest, [])
  else
    match Atoi lengthParam with
    | none => some (httpError w "invalid length" StatusBadRequest, [])
    | some length =>
      match SequenceCall maxAlloc length with
      | none => none
      | some (_, some err) =>
        some (httpError w ("failed to compute sequence: " ++ err) StatusBadRequest, [length])
      | some (seq, none) => some (Fprintf_s w seq, [length])

/-! Section: The loop computes the tokens position by position -/

/-- After the first `k` iterations the first `k` cells hold their tokens and
the remaining cells still hold the zero value of `make`. -/
theorem foldl_loopBody (N : Nat) : ∀ k : Nat, k ≤ N →
    (List.range k).foldl loopBody (List.replicate N "") =
      (List.range k).map (fun i : Nat => switchToken ((i : Int) + 1)) ++
        List.replicate (N - k) "" := by
  intro k
  induction k with
  | zero => intro _; simp
  | succ k ih =>
    intro hk
    have hk' : k ≤ N := Nat.le_of_succ_le hk
    obtain ⟨d, hd⟩ : ∃ d, N - k = d + 1 := ⟨N - k - 1, by omega⟩
    have hd' : N - (k + 1) = d := by omega
    rw [List.range_succ, List.foldl_append, ih hk', hd, hd']
    simp only [List.foldl_cons, List.foldl_nil, loopBody, List.map_append, List.map_cons,
      List.map_nil, List.append_assoc]
    rw [List.set_append_right _ _ (by simp)]
    simp [List.replicate_succ]

/-- The sequence returned for a non-negative length, in closed form. -/
theorem Sequence_of_nonneg (length : Int) (h : 0 ≤ length) :
    Sequence length =
      ((List.range length.toNat).map (fun i : Nat => switchToken ((i : Int) + 1)), none) := by
  have hn : ¬ length < 0 := not_lt.mpr h
  simp only [Sequence, hn, if_false, List.length_replicate]
  rw [foldl_loopBody length.toNat length.toNat (le_refl _)]
  simp

/-- The sequence returned for a negative length. -/
theorem Sequence_of_neg (length : Int) (h : length < 0) :
    Sequence length = ([], some "length is negative") := by
  simp [Sequence, h]

/-- The loop overwrites every cell it visits: after the first `k` iterations
on a slice `init`, whatever it held, the first `k` cells hold their tokens
and the remaining cells are unchanged. -/
theorem foldl_loopBody_init (init : List String) : ∀ k : Nat, k ≤ init.length →
    (List.range k).foldl loopBody init =
      (List.range k).map (fun i : Nat => switchToken ((i : Int) + 1)) ++ init.drop k := by
  intro k
  induction k with
  | zero => intro _; simp
  | succ k ih =>
    intro hk
    have hk' : k < init.length := hk
    rw [List.range_succ, List.foldl_append, ih (Nat.le_of_lt hk'),
      List.drop_eq_getElem_cons hk']
    simp only [List.foldl_cons, List.foldl_nil, loopBody, List.map_append, List.map_cons,
      List.map_nil, List.append_assoc]
    rw [List.set_append_right _ _ (by simp)]
    simp only [List.length_map, List.length_range, Nat.sub_self, List.set_cons_zero,
      List.singleton_append]

/-- A call with a negative length returns the error, whatever the
allocation limit. -/
theorem SequenceCall_of_neg (maxAlloc : Nat) (length : Int) (h : length < 0) :
    SequenceCall maxAlloc length = some ([], some "length is negative") := by
  simp [SequenceCall, h]

/-- A call with a length `≥ 0` that `make` can allocate returns the value
`Sequence length`. -/
theorem SequenceCall_of_fits (maxAlloc : Nat) (length : Int) (h : 0 ≤ length)
    (hov : stringSize * length < 2 ^ 64) (hmax : stringSize * length ≤ (maxAlloc : Int)) :
    SequenceCall maxAlloc length = some (Sequence length) := by
  have hn : ¬ length < 0 := not_lt.mpr h
  have hc : ¬ (length < 0 ∨ 2 ^ 64 ≤ stringSize * length ∨
      (maxAlloc : Int) < stringSize * length) := by
    rintro (h1 | h1 | h1)
    · exact hn h1
    · exact absurd hov (not_lt.mpr h1)
    · exact absurd h1 (not_lt.mpr hmax)
  have hm : makeslice maxAlloc length = some (List.replicate length.toNat "") := by
    unfold makeslice
    rw [if_neg hc]
  simp only [SequenceCall, Sequence, hn, hm, if_false]

/-- A call with a length `≥ 0` that `make` cannot allocate panics. -/
theorem SequenceCall_of_large (maxAlloc : Nat) (length : Int) (h : 0 ≤ length)
    (hbig : 2 ^ 64 ≤ stringSize * length ∨ (maxAlloc : Int) < stringSize * length) :
    SequenceCall maxAlloc length = none := by
  have hn : ¬ length < 0 := not_lt.mpr h
  have hm : makeslice maxAlloc length = none := by
    unfold makeslice
    rw [if_pos (Or.inr hbig)]
  simp only [SequenceCall, hn, hm, if_false]

/-- Every position `1 ≤ i ≤ length` of `Sequence length` holds the token the
`switch` selects for `i`. -/
theorem elementAt_Sequence (length i : Int) (h1 : 1 ≤ i) (h2 : i ≤ length) :
    elementAt (Sequence length).1 i = some (switchToken i) := by
  have hlen : 0 ≤ length := by omega
  have hlt : (i - 1).toNat < length.toNat := by omega
  have hcast : (((i - 1).toNat : Nat) : Int) + 1 = i := by omega
  rw [Sequence_of_nonneg length hlen]
  simp only [elementAt, h1, if_true]
  rw [List.getElem?_map, List.getElem?_range hlt, Option.map_some', hcast]

/-- The `switch` of `Sequence`, with its conditions read as divisibility. -/
theorem switchToken_dvd (n : Int) :
    switchToken n =
      if (3 : Int) ∣ n ∧ (5 : Int) ∣ n then "foobar"
      else if (7 : Int) ∣ n then "bar"
      else if (3 : Int) ∣ n then "foo"
      else Itoa n := by
  simp only [switchToken, Int.dvd_iff_tmod_eq_zero]

/-- A shorter requested length yields an initial segment of a longer one. -/
theorem Sequence_prefix (m n : Int) (h0 : 0 ≤ m) (hmn : m ≤ n) :
    List.IsPrefix (Sequence m).1 (Sequence n).1 := by
  have hmin : min m.toNat n.toNat = m.toNat := by
    apply Nat.min_eq_left
    omega
  rw [Sequence_of_nonneg m h0, Sequence_of_nonneg n (le_trans h0 hmn)]
  apply List.IsPrefix.map
  rw [← hmin, ← List.take_range]
  exact List.take_prefix _ _

/-! Section: Length and error behaviour -/

/-- C1, as stated, fails: under the allocation limit of a 64-bit platform the
call with length `2^63 - 1` does not return a sequence of that many
elements (it panics in `make`). -/
theorem SequenceCall_huge_length_no_sequence :
    ¬ ∃ seq : List String,
        SequenceCall maxAlloc64 9223372036854775807 = some (seq, none) ∧
          (seq.length : Int) = 9223372036854775807 := by
  rw [SequenceCall_of_large maxAlloc64 9223372036854775807 (by decide) (by decide)]
  rintro ⟨seq, h, _⟩
  exact Option.noConfusion h

/-- C1, amended: for every length `≥ 0` that `make` can allocate (its size
in bytes fits a `uintptr` and the allocation limit), the call returns no
error and a sequence of exactly `length` elements; the call with length 0
returns the empty sequence without error under every limit. -/
theorem SequenceCall_length_eq (maxAlloc : Nat) (length : Int) (h : 0 ≤ length)
    (hov : stringSize * length < 2 ^ 64) (hmax : stringSize * length ≤ (maxAlloc : Int)) :
    (∃ seq : List String, SequenceCall maxAlloc length = some (seq, none) ∧
        (seq.length : Int) = length) ∧
      SequenceCall maxAlloc 0 = some ([], none) := by
  constructor
  · refine ⟨(List.range length.toNat).map (fun i : Nat => switchToken ((i : Int) + 1)), ?_, ?_⟩
    · rw [SequenceCall_of_fits maxAlloc length h hov hmax, Sequence_of_nonneg length h]
    · simp only [List.length_map, List.length_range]
      omega
  · rw [SequenceCall_of_fits maxAlloc 0 (le_refl _) (by decide)
      (by simp [stringSize])]
    rfl

/-- Instance of `SequenceCall_length_eq` at length 4 under the limit of a
64-bit platform. -/
theorem SequenceCall_length_eq_witness :
    (∃ seq : List String, SequenceCall maxAlloc64 4 = some (seq, none) ∧
        (seq.length : Int) = 4) ∧
      SequenceCall maxAlloc64 0 = some ([], none) :=
  SequenceCall_length_eq maxAlloc64 4 (by decide) (by decide) (by decide)

/-- C2, as stated, fails: under the allocation limit of a 64-bit platform the
call with length `2^44 + 1`, which is `≥ 0`, fails: it does not return. -/
theorem SequenceCall_fails_beyond_limit :
    ¬ ∃ r : List String × Option String,
        SequenceCall maxAlloc64 17592186044417 = some r := by
  rw [SequenceCall_of_large maxAlloc64 17592186044417 (by decide) (by decide)]
  rintro ⟨r, h⟩
  exact Option.noConfusion h

/-- C2, amended: for every length `< 0` the call fails with the error
`length is negative` and returns the nil (empty) sequence; for every length
`≥ 0` it never returns an error: it returns a sequence without error when
`make` can allocate it, and panics in `make` otherwise. -/
theorem SequenceCall_error_iff_negative (maxAlloc : Nat) (length : Int) :
    (length < 0 → SequenceCall maxAlloc length = some ([], some "length is negative")) ∧
      (0 ≤ length → ∀ (seq : List String) (e : String),
        SequenceCall maxAlloc length ≠ some (seq, some e)) ∧
      (0 ≤ length → stringSize * length < 2 ^ 64 → stringSize * length ≤ (maxAlloc : Int) →
        ∃ seq : List String, SequenceCall maxAlloc length = some (seq, none)) ∧
      (0 ≤ length →
        (2 ^ 64 ≤ stringSize * length ∨ (maxAlloc : Int) < stringSize * length) →
        SequenceCall maxAlloc length = none) := by
  refine ⟨SequenceCall_of_neg maxAlloc length, ?_, ?_, SequenceCall_of_large maxAlloc length⟩
  · intro h seq e hEq
    by_cases hbig : 2 ^ 64 ≤ stringSize * length ∨ (maxAlloc : Int) < stringSize * length
    · rw [SequenceCall_of_large maxAlloc length h hbig] at hEq
      exact Option.noConfusion hEq
    · rw [SequenceCall_of_fits maxAlloc length h (not_le.mp (fun h1 => hbig (Or.inl h1)))
        (not_lt.mp (fun h1 => hbig (Or.inr h1))), Sequence_of_nonneg length h] at hEq
      simp at hEq
  · intro h hov hmax
    exact ⟨_, by rw [SequenceCall_of_fits maxAlloc length h hov hmax,
      Sequence_of_nonneg length h]⟩

/-- Instance of `SequenceCall_error_iff_negative` at lengths -3, 2 and
`2^44 + 1` under the limit of a 64-bit platform. -/
theorem SequenceCall_error_iff_negative_witness :
    SequenceCall maxAlloc64 (-3) = some ([], some "length is negative") ∧
      (∀ (seq : List String) (e : String), SequenceCall maxAlloc64 2 ≠ some (seq, some e)) ∧
      (∃ seq : List String, SequenceCall maxAlloc64 2 = some (seq, none)) ∧
      SequenceCall maxAlloc64 17592186044417 = none :=
  ⟨(SequenceCall_error_iff_negative maxAlloc64 (-3)).1 (by decide),
    (SequenceCall_error_iff_negative maxAlloc64 2).2.1 (by decide),
    (SequenceCall_error_iff_negative maxAlloc64 2).2.2.1 (by decide) (by decide) (by decide),
    (SequenceCall_error_iff_negative maxAlloc64 17592186044417).2.2.2 (by decide)
      (by decide)⟩

/-! Section: The token at each position -/

/-- C3: every position `1 ≤ i ≤ length` divisible by 15 holds `foobar`. -/
theorem Sequence_foobar (length i : Int) (h1 : 1 ≤ i) (h2 : i ≤ length)
    (h15 : (15 : Int) ∣ i) :
    elementAt (Sequence length).1 i = some "foobar" := by
  have h3 : (3 : Int) ∣ i := by omega
  have h5 : (5 : Int) ∣ i := by omega
  rw [elementAt_Sequence length i h1 h2, switchToken_dvd]
  simp [h3, h5]

/-- Instance of `Sequence_foobar` at position 30 of a sequence of 31. -/
theorem Sequence_foobar_witness :
    elementAt (Sequence 31).1 30 = some "foobar" :=
  Sequence_foobar 31 30 (by decide) (by decide) (by decide)

/-- C4: every position `1 ≤ i ≤ length` divisible by 7 but not by 15 holds
`bar`; in a sequence reaching position 21, position 21 holds `bar` (and so
not `foo`), although 3 divides 21. -/
theorem Sequence_bar (length i : Int) (h1 : 1 ≤ i) (h2 : i ≤ length)
    (h7 : (7 : Int) ∣ i) (h15 : ¬ (15 : Int) ∣ i) :
    elementAt (Sequence length).1 i = some "bar" ∧
      (21 ≤ length → elementAt (Sequence length).1 21 = some "bar" ∧
        elementAt (Sequence length).1 21 ≠ some "foo") := by
  have h35 : ¬ ((3 : Int) ∣ i ∧ (5 : Int) ∣ i) := by
    rintro ⟨h3, h5⟩
    exact h15 (by omega)
  refine ⟨?_, ?_⟩
  · rw [elementAt_Sequence length i h1 h2, switchToken_dvd]
    simp [h35, h7]
  · intro h21
    rw [elementAt_Sequence length 21 (by decide) h21]
    constructor <;> decide

/-- Instance of `Sequence_bar` at position 28 of a sequence of 30. -/
theorem Sequence_bar_witness :
    elementAt (Sequence 30).1 28 = some "bar" ∧
      elementAt (Sequence 30).1 21 = some "bar" ∧
      elementAt (Sequence 30).1 21 ≠ some "foo" :=
  ⟨(Sequence_bar 30 28 (by decide) (by decide) (by decide) (by decide)).1,
    (Sequence_bar 30 28 (by decide) (by decide) (by decide) (by decide)).2 (by decide)⟩

/-- C5: every position `1 ≤ i ≤ length` divisible by 3 but neither by 7 nor
by 5 holds `foo`. -/
theorem Sequence_foo (length i : Int) (h1 : 1 ≤ i) (h2 : i ≤ length)
    (h3 : (3 : Int) ∣ i) (h7 : ¬ (7 : Int) ∣ i) (h5 : ¬ (5 : Int) ∣ i) :
    elementAt (Sequence length).1 i = some "foo" := by
  rw [elementAt_Sequence length i h1 h2, switchToken_dvd]
  simp [h3, h5, h7]

/-- Instance of `Sequence_foo` at position 9 of a sequence of 10. -/
theorem Sequence_foo_witness :
    elementAt (Sequence 10).1 9 = some "foo" :=
  Sequence_foo 10 9 (by decide) (by decide) (by decide) (by decide) (by decide)

/-- C6: every position `1 ≤ i ≤ length` divisible neither by 3 nor by 7
holds the decimal string of `i`; this covers the positions divisible by 5
alone: whenever the sequence reaches them, positions 5, 10 and 20 hold
`5`, `10` and `20`. -/
theorem Sequence_decimal (length i : Int) (h1 : 1 ≤ i) (h2 : i ≤ length)
    (h3 : ¬ (3 : Int) ∣ i) (h7 : ¬ (7 : Int) ∣ i) :
    elementAt (Sequence length).1 i = some (Itoa i) ∧
      (5 ≤ length → elementAt (Sequence length).1 5 = some "5") ∧
      (10 ≤ length → elementAt (Sequence length).1 10 = some "10") ∧
      (20 ≤ length → elementAt (Sequence length).1 20 = some "20") := by
  refine ⟨?_, ?_, ?_, ?_⟩
  · rw [elementAt_Sequence length i h1 h2, switchToken_dvd]
    simp [h3, h7]
  · intro h
    rw [elementAt_Sequence length 5 (by decide) h]
    decide
  · intro h
    rw [elementAt_Sequence length 10 (by decide) h]
    decide
  · intro h
    rw [elementAt_Sequence length 20 (by decide) h]
    decide

/-- Instance of `Sequence_decimal` at position 25 of a sequence of 26. -/
theorem Sequence_decimal_witness :
    elementAt (Sequence 26).1 25 = some "25" ∧
      elementAt (Sequence 26).1 5 = some "5" ∧
      elementAt (Sequence 26).1 10 = some "10" ∧
      elementAt (Sequence 26).1 20 = some "20" :=
  have h := Sequence_decimal 26 25 (by decide) (by decide) (by decide) (by decide)
  ⟨h.1, h.2.1 (by decide), h.2.2.1 (by decide), h.2.2.2 (by decide)⟩

/-! Section: The documented rule set and the test cases -/

/-- C7: at length 15 (the second case of `TestSequence`) the code does not
follow the rule set of its doc comment: position 5 holds `5` where the doc
comment asks for `bar`, positions 7 and 14 hold `bar` where it asks for `7`
and `14`, and the returned sequence differs from the expected one of the
test. -/
theorem Sequence_15_not_documented_rules :
    Sequence 15 =
        (["1", "2", "foo", "4", "5", "foo", "bar", "8", "foo", "10", "11", "foo", "13",
          "bar", "foobar"], none) ∧
      elementAt (Sequence 15).1 5 = some "5" ∧ docToken 5 = "bar" ∧
      elementAt (Sequence 15).1 7 = some "bar" ∧ docToken 7 = "7" ∧
      elementAt (Sequence 15).1 14 = some "bar" ∧ docToken 14 = "14" ∧
      sequencesEqual
        ["1", "2", "foo", "4", "bar", "foo", "7", "8", "foo", "bar", "11", "foo", "13",
          "14", "foobar"] (Sequence 15).1 = false := by
  decide

/-- C8: `Sequence 7` returns, without error, exactly the seven tokens
`1 2 foo 4 5 foo bar`. -/
theorem Sequence_7 :
    Sequence 7 = (["1", "2", "foo", "4", "5", "foo", "bar"], none) := by
  decide

/-- C9, as stated, fails: `Sequence 7` is not equal, in the sense of
`sequencesEqual`, to the five tokens `1 2 foo 4 bar` the first case of
`TestSequence` expects. -/
theorem Sequence_7_not_test_expectation :
    ¬ ((Sequence 7).2 = none ∧
        sequencesEqual ["1", "2", "foo", "4", "bar"] (Sequence 7).1 = true) := by
  decide

/-- C9, amended: `Sequence 7` returns without error a sequence of seven
elements beginning with `1 2 foo 4`; the expected list of the first test
case has five elements, so `sequencesEqual` rejects the pair. -/
theorem Sequence_7_length_mismatch :
    (Sequence 7).2 = none ∧ (Sequence 7).1.length = 7 ∧
      (Sequence 7).1.take 4 = ["1", "2", "foo", "4"] ∧
      (["1", "2", "foo", "4", "bar"] : List String).length = 5 ∧
      sequencesEqual ["1", "2", "foo", "4", "bar"] (Sequence 7).1 = false := by
  decide

/-! Section: Independence from the requested length -/

/-- C10: for `1 ≤ i ≤ m ≤ n`, position `i` holds the same element in
`Sequence m` and in `Sequence n` (an element that exists and is the token
selected for `i` alone), and `Sequence m` is a prefix of `Sequence n`. -/
theorem Sequence_position_independent (i m n : Int) (h1 : 1 ≤ i) (h2 : i ≤ m) (h3 : m ≤ n) :
    elementAt (Sequence m).1 i = elementAt (Sequence n).1 i ∧
      elementAt (Sequence m).1 i = some (switchToken i) ∧
      List.IsPrefix (Sequence m).1 (Sequence n).1 := by
  refine ⟨?_, elementAt_Sequence m i h1 h2, Sequence_prefix m n (by omega) h3⟩
  rw [elementAt_Sequence m i h1 h2, elementAt_Sequence n i h1 (le_trans h2 h3)]

/-- Instance of `Sequence_position_independent` at position 3, lengths 5 and 9. -/
theorem Sequence_position_independent_witness :
    elementAt (Sequence 5).1 3 = elementAt (Sequence 9).1 3 ∧
      elementAt (Sequence 5).1 3 = some (switchToken 3) ∧
      List.IsPrefix (Sequence 5).1 (Sequence 9).1 :=
  Sequence_position_independent 3 5 9 (by decide) (by decide) (by decide)

/-! Section: Determinism -/

/-- The element-wise comparison of a slice with itself succeeds at every
index. -/
theorem sequencesEqualLoop_self (a : List String) (l : List Nat) :
    sequencesEqualLoop a a l = true := by
  induction l with
  | nil => rfl
  | cons i rest ih => simp [sequencesEqualLoop, ih]

/-- A slice is equal to itself in the sense of `sequencesEqual`. -/
theorem sequencesEqual_self (a : List String) : sequencesEqual a a = true := by
  simp [sequencesEqual, sequencesEqualLoop_self]

/-- A call that returns, returns the value `Sequence n`, whatever the
allocation limit. -/
theorem SequenceCall_eq_some (maxAlloc : Nat) (n : Int) (r : List String × Option String)
    (h : SequenceCall maxAlloc n = some r) : r = Sequence n := by
  by_cases hn : n < 0
  · rw [SequenceCall_of_neg maxAlloc n hn] at h
    rw [Sequence_of_neg n hn]
    exact (Option.some.inj h).symm
  · have h0 : 0 ≤ n := not_lt.mp hn
    by_cases hbig : 2 ^ 64 ≤ stringSize * n ∨ (maxAlloc : Int) < stringSize * n
    · rw [SequenceCall_of_large maxAlloc n h0 hbig] at h
      exact Option.noConfusion h
    · rw [SequenceCall_of_fits maxAlloc n h0 (not_le.mp (fun h1 => hbig (Or.inl h1)))
        (not_lt.mp (fun h1 => hbig (Or.inr h1)))] at h
      exact (Option.some.inj h).symm

/-- C11: `Sequence` is deterministic: two calls with the same argument `n`,
each under its own allocation limit, that return `r1` and `r2`, return the
same error outcome and the same sequence, element by element (also in the
sense of `sequencesEqual`); and the sequence does not depend on what the
cells of the slice held before the loop, which overwrites all of them. -/
theorem SequenceCall_deterministic (a1 a2 : Nat) (n : Int)
    (r1 r2 : List String × Option String)
    (h1 : SequenceCall a1 n = some r1) (h2 : SequenceCall a2 n = some r2) :
    r1.2 = r2.2 ∧ r1.1 = r2.1 ∧ sequencesEqual r1.1 r2.1 = true ∧
      (∀ i : Int, elementAt r1.1 i = elementAt r2.1 i) ∧
      (∀ init : List String, init.length = r1.1.length →
        (List.range init.length).foldl loopBody init = r1.1) := by
  have e1 := SequenceCall_eq_some a1 n r1 h1
  have e2 := SequenceCall_eq_some a2 n r2 h2
  subst e1 e2
  refine ⟨rfl, rfl, sequencesEqual_self _, fun _ => rfl, ?_⟩
  intro init hlen
  rw [foldl_loopBody_init init init.length (le_refl _), List.drop_length, List.append_nil]
  by_cases hn : n < 0
  · rw [Sequence_of_neg n hn] at hlen ⊢
    rw [List.length_nil] at hlen
    rw [hlen]
    rfl
  · rw [Sequence_of_nonneg n (not_lt.mp hn)] at hlen ⊢
    simp only [List.length_map, List.length_range] at hlen
    rw [hlen]

/-- Instance of `SequenceCall_deterministic` for two calls at length 3, one
under the limit of a 64-bit platform, one under a limit of 100 bytes. -/
theorem SequenceCall_deterministic_witness :
    SequenceCall maxAlloc64 3 = some (Sequence 3) ∧ SequenceCall 100 3 = some (Sequence 3) ∧
      (Sequence 3).2 = (Sequence 3).2 ∧ (Sequence 3).1 = (Sequence 3).1 ∧
      sequencesEqual (Sequence 3).1 (Sequence 3).1 = true ∧
      (∀ i : Int, elementAt (Sequence 3).1 i = elementAt (Sequence 3).1 i) ∧
      (∀ init : List String, init.length = (Sequence 3).1.length →
        (List.range init.length).foldl loopBody init = (Sequence 3).1) :=
  ⟨by decide, by decide,
    SequenceCall_deterministic maxAlloc64 100 3 (Sequence 3) (Sequence 3)
      (by decide) (by decide)⟩

/-! Section: The responses of the handlers, case by case -/

/-- On a fresh writer `http.Error` sets the status and writes the message
followed by a newline. -/
theorem httpError_fresh (msg : String) (code : Nat) :
    httpError freshWriter msg code = ⟨some code, msg ++ "\n"⟩ := by
  simp [httpError, Fprintln, ResponseWriter.Write, ResponseWriter.WriteHeader, freshWriter]

/-- On a fresh writer `Fprintf` with `%s` implies status 200 and writes the
formatted slice. -/
theorem Fprintf_s_fresh (seq : List String) :
    Fprintf_s freshWriter seq = ⟨some 200, Sprintf_s seq⟩ := by
  simp [Fprintf_s, ResponseWriter.Write, ResponseWriter.WriteHeader, freshWriter, StatusOK]

/-- The empty string is not accepted by `Atoi`. -/
theorem Atoi_ne_empty (s : String) (n : Int) (h : Atoi s = some n) : s ≠ "" := by
  intro hs
  subst hs
  have h0 : Atoi "" = none := by decide
  rw [h0] at h
  exact Option.noConfusion h

/-- The response to a request without a (non-empty) `length` parameter. -/
theorem foobarHandler_missing (r : Request) (h : r.query.Get "length" = "") :
    foobarHandler freshWriter r =
      (⟨some 400, "missing parameter: length\n"⟩, []) := by
  simp [foobarHandler, h, httpError_fresh, StatusBadRequest]

/-- The response to a request whose `length` parameter `Atoi` rejects. -/
theorem foobarHandler_invalid (r : Request) (h : r.query.Get "length" ≠ "")
    (ha : Atoi (r.query.Get "length") = none) :
    foobarHandler freshWriter r = (⟨some 400, "invalid length\n"⟩, []) := by
  simp [foobarHandler, h, ha, httpError_fresh, StatusBadRequest]

/-- The response to a request whose `length` parameter is a negative integer. -/
theorem foobarHandler_negative (r : Request) (n : Int)
    (ha : Atoi (r.query.Get "length") = some n) (hn : n < 0) :
    foobarHandler freshWriter r =
      (⟨some 400, "failed to compute sequence: length is negative\n"⟩, [n]) := by
  have h := Atoi_ne_empty _ _ ha
  simp only [foobarHandler, h, ha, if_false, Sequence_of_neg n hn, httpError_fresh,
    StatusBadRequest]
  rfl

/-- The response to a request whose `length` parameter is an integer `≥ 0`. -/
theorem foobarHandler_ok (r : Request) (n : Int)
    (ha : Atoi (r.query.Get "length") = some n) (hn : 0 ≤ n) :
    foobarHandler freshWriter r = (⟨some 200, Sprintf_s (Sequence n).1⟩, [n]) := by
  have h := Atoi_ne_empty _ _ ha
  simp only [foobarHandler, h, ha, if_false, Sequence_of_nonneg n hn, Fprintf_s_fresh]

/-- A call of the handler in which `foobar.Sequence` does not panic returns
the value `foobarHandler w r`. -/
theorem foobarHandlerCall_of_fits (maxAlloc : Nat) (w : ResponseWriter) (r : Request)
    (hfit : ∀ n : Int, Atoi (r.query.Get "length") = some n → 0 ≤ n →
      stringSize * n < 2 ^ 64 ∧ stringSize * n ≤ (maxAlloc : Int)) :
    foobarHandlerCall maxAlloc w r = some (foobarHandler w r) := by
  by_cases hp : r.query.Get "length" = ""
  · simp only [foobarHandlerCall, foobarHandler, hp, if_true]
  · cases ha : Atoi (r.query.Get "length") with
    | none => simp only [foobarHandlerCall, foobarHandler, hp, ha, if_false]
    | some n =>
      by_cases hn : n < 0
      · simp only [foobarHandlerCall, foobarHandler, hp, ha, if_false,
          SequenceCall_of_neg maxAlloc n hn, Sequence_of_neg n hn]
      · have h0 : 0 ≤ n := not_lt.mp hn
        obtain ⟨hov, hmax⟩ := hfit n ha h0
        simp only [foobarHandlerCall, foobarHandler, hp, ha, if_false,
          SequenceCall_of_fits maxAlloc n h0 hov hmax, Sequence_of_nonneg n h0]

/-- A call of the handler whose `length` parameter is an integer `≥ 0` that
`make` cannot allocate panics. -/
theorem foobarHandlerCall_of_large (maxAlloc : Nat) (w : ResponseWriter) (r : Request)
    (n : Int) (ha : Atoi (r.query.Get "length") = some n) (hn : 0 ≤ n)
    (hbig : 2 ^ 64 ≤ stringSize * n ∨ (maxAlloc : Int) < stringSize * n) :
    foobarHandlerCall maxAlloc w r = none := by
  have hp := Atoi_ne_empty _ _ ha
  simp only [foobarHandlerCall, hp, ha, if_false, SequenceCall_of_large maxAlloc n hn hbig]

/-! Section: The characters of a token -/

/-- The character of a decimal digit is a digit. -/
theorem digitChar_isDigit (d : Nat) (h : d < 10) : (Nat.digitChar d).isDigit = true := by
  interval_cases d <;> rfl

/-- The digit loop of `Nat.repr` only produces digits. -/
theorem toDigitsCore_isDigit (fuel : Nat) : ∀ (n : Nat) (ds : List Char),
    (∀ c ∈ ds, c.isDigit = true) →
      ∀ c ∈ Nat.toDigitsCore 10 fuel n ds, c.isDigit = true := by
  induction fuel with
  | zero =>
    intro n ds hds c hc
    exact hds c (by simpa [Nat.toDigitsCore] using hc)
  | succ fuel ih =>
    intro n ds hds c hc
    have hcons : ∀ x ∈ Nat.digitChar (n % 10) :: ds, x.isDigit = true := by
      intro x hx
      rcases List.mem_cons.mp hx with rfl | hx
      · exact digitChar_isDigit _ (Nat.mod_lt _ (by decide))
      · exact hds x hx
    simp only [Nat.toDigitsCore] at hc
    split at hc
    · exact hcons c hc
    · exact ih _ _ hcons c hc

/-- The digit loop of `Nat.repr` never shortens its accumulator. -/
theorem toDigitsCore_ne_nil (fuel : Nat) : ∀ (n : Nat) (ds : List Char),
    ds ≠ [] → Nat.toDigitsCore 10 fuel n ds ≠ [] := by
  induction fuel with
  | zero =>
    intro n ds hds
    simpa [Nat.toDigitsCore] using hds
  | succ fuel ih =>
    intro n ds _
    simp only [Nat.toDigitsCore]
    split
    · exact List.cons_ne_nil _ _
    · exact ih _ _ (List.cons_ne_nil _ _)

/-- The decimal string of a natural number consists of digits. -/
theorem repr_isDigit (m : Nat) : ∀ c ∈ (Nat.repr m).data, c.isDigit = true := by
  intro c hc
  have hc' : c ∈ Nat.toDigitsCore 10 (m + 1) m [] := by
    simpa [Nat.repr, Nat.toDigits, List.asString] using hc
  exact toDigitsCore_isDigit (m + 1) m [] (by simp) c hc'

/-- The decimal string of a natural number is not empty. -/
theorem repr_ne_empty (m : Nat) : (Nat.repr m).data ≠ [] := by
  have h : Nat.toDigitsCore 10 (m + 1) m [] ≠ [] := by
    simp only [Nat.toDigitsCore]
    split
    · exact List.cons_ne_nil _ _
    · exact toDigitsCore_ne_nil _ _ _ (List.cons_ne_nil _ _)
  simpa [Nat.repr, Nat.toDigits, List.asString] using h

/-- For a position `i ≥ 1`, `Itoa i` is the decimal string of the natural
number `i`. -/
theorem Itoa_of_pos (i : Int) (h : 1 ≤ i) : Itoa i = Nat.repr i.toNat := by
  obtain ⟨m, rfl⟩ : ∃ m : Nat, i = (m : Int) := ⟨i.toNat, by omega⟩
  rfl

/-- The token of a position `i ≥ 1` is one of the three keywords or a
non-empty string of digits. -/
theorem switchToken_cases (i : Int) (h : 1 ≤ i) :
    switchToken i = "foobar" ∨ switchToken i = "bar" ∨ switchToken i = "foo" ∨
      (switchToken i = Itoa i ∧ (Itoa i).data ≠ [] ∧
        ∀ c ∈ (Itoa i).data, c.isDigit = true) := by
  unfold switchToken
  split
  · exact Or.inl rfl
  · split
    · exact Or.inr (Or.inl rfl)
    · split
      · exact Or.inr (Or.inr (Or.inl rfl))
      · refine Or.inr (Or.inr (Or.inr ⟨rfl, ?_, ?_⟩))
        · rw [Itoa_of_pos i h]
          exact repr_ne_empty _
        · rw [Itoa_of_pos i h]
          exact repr_isDigit _

/-- A decimal string is none of the keywords. -/
theorem digits_ne_keyword (t : String) (h : ∀ c ∈ t.data, c.isDigit = true) :
    t ≠ "foobar" ∧ t ≠ "bar" ∧ t ≠ "foo" := by
  refine ⟨?_, ?_, ?_⟩ <;>
  · intro ht
    subst ht
    revert h
    decide

/-! Section: Status and body of the responses -/

/-- C12, as stated, fails: for the request without any query parameter the
body is none of the three bare error messages. -/
theorem foobarHandler_body_not_bare_message :
    ¬ ((foobarHandler freshWriter ⟨[]⟩).1.status = some 400 ∧
        ((foobarHandler freshWriter ⟨[]⟩).1.body = "missing parameter: length" ∨
          (foobarHandler freshWriter ⟨[]⟩).1.body = "invalid length" ∨
          (foobarHandler freshWriter ⟨[]⟩).1.body =
            "failed to compute sequence: length is negative")) := by
  decide

/-- C12, amended: the status is 200 exactly when the `length` parameter is
non-empty, `Atoi` turns it into an integer `n ≥ 0` and `make` can allocate a
slice of `n` strings; when `n ≥ 0` is too large for `make` the handler
panics and writes no response; for every other request the status is 400 and
the body is one of the three error messages followed by a newline, the third
message being `failed to compute sequence: ` followed by the error message
of `Sequence`. -/
theorem foobarHandlerCall_status (maxAlloc : Nat) (r : Request) :
    ((∃ (resp : ResponseWriter) (calls : List Int),
        foobarHandlerCall maxAlloc freshWriter r = some (resp, calls) ∧
          resp.status = some 200) ↔
        (r.query.Get "length" ≠ "" ∧
          ∃ n : Int, Atoi (r.query.Get "length") = some n ∧ 0 ≤ n ∧
            stringSize * n < 2 ^ 64 ∧ stringSize * n ≤ (maxAlloc : Int))) ∧
      (foobarHandlerCall maxAlloc freshWriter r = none ↔
        ∃ n : Int, Atoi (r.query.Get "length") = some n ∧ 0 ≤ n ∧
          (2 ^ 64 ≤ stringSize * n ∨ (maxAlloc : Int) < stringSize * n)) ∧
      (¬ (r.query.Get "length" ≠ "" ∧
          ∃ n : Int, Atoi (r.query.Get "length") = some n ∧ 0 ≤ n) →
        ∃ (resp : ResponseWriter) (calls : List Int),
          foobarHandlerCall maxAlloc freshWriter r = some (resp, calls) ∧
            resp.status = some 400 ∧
            (resp.body = "missing parameter: length\n" ∨
              resp.body = "invalid length\n" ∨
              ∃ (n : Int) (e : String), Atoi (r.query.Get "length") = some n ∧
                SequenceCall maxAlloc n = some ([], some e) ∧
                resp.body = "failed to compute sequence: " ++ e ++ "\n")) := by
  have hbody : ("failed to compute sequence: length is negative\n" : String) =
      "failed to compute sequence: " ++ "length is negative" ++ "\n" := by decide
  by_cases hp : r.query.Get "length" = ""
  · have hfit : ∀ n : Int, Atoi (r.query.Get "length") = some n → 0 ≤ n →
        stringSize * n < 2 ^ 64 ∧ stringSize * n ≤ (maxAlloc : Int) := by
      intro n ha _
      exact absurd hp (Atoi_ne_empty _ _ ha)
    rw [foobarHandlerCall_of_fits maxAlloc freshWriter r hfit, foobarHandler_missing r hp]
    refine ⟨⟨?_, fun h => absurd hp h.1⟩, ⟨fun h => Option.noConfusion h, ?_⟩, fun _ =>
      ⟨_, _, rfl, rfl, Or.inl rfl⟩⟩
    · rintro ⟨resp, calls, hEq, hst⟩
      obtain ⟨rfl, -⟩ := Prod.mk.inj (Option.some.inj hEq)
      exact absurd hst (by decide)
    · rintro ⟨n, ha, -⟩
      exact absurd hp (Atoi_ne_empty _ _ ha)
  · cases ha : Atoi (r.query.Get "length") with
    | none =>
      have hfit : ∀ n : Int, Atoi (r.query.Get "length") = some n → 0 ≤ n →
          stringSize * n < 2 ^ 64 ∧ stringSize * n ≤ (maxAlloc : Int) := by
        intro n hn _
        rw [ha] at hn
        exact Option.noConfusion hn
      rw [foobarHandlerCall_of_fits maxAlloc freshWriter r hfit, foobarHandler_invalid r hp ha]
      refine ⟨⟨?_, ?_⟩, ⟨fun h => Option.noConfusion h, ?_⟩, fun _ =>
        ⟨_, _, rfl, rfl, Or.inr (Or.inl rfl)⟩⟩
      · rintro ⟨resp, calls, hEq, hst⟩
        obtain ⟨rfl, -⟩ := Prod.mk.inj (Option.some.inj hEq)
        exact absurd hst (by decide)
      · rintro ⟨-, n, hn, -⟩
        exact Option.noConfusion hn
      · rintro ⟨n, hn, -⟩
        exact Option.noConfusion hn
    | some n =>
      by_cases hn : n < 0
      · have hfit : ∀ m : Int, Atoi (r.query.Get "length") = some m → 0 ≤ m →
            stringSize * m < 2 ^ 64 ∧ stringSize * m ≤ (maxAlloc : Int) := by
          intro m hm h0
          rw [ha] at hm
          obtain rfl := Option.some.inj hm
          omega
        rw [foobarHandlerCall_of_fits maxAlloc freshWriter r hfit,
          foobarHandler_negative r n ha hn]
        refine ⟨⟨?_, ?_⟩, ⟨fun h => Option.noConfusion h, ?_⟩, fun _ =>
          ⟨_, _, rfl, rfl, Or.inr (Or.inr ⟨n, "length is negative", rfl,
            SequenceCall_of_neg maxAlloc n hn, hbody⟩)⟩⟩
        · rintro ⟨resp, calls, hEq, hst⟩
          obtain ⟨rfl, -⟩ := Prod.mk.inj (Option.some.inj hEq)
          exact absurd hst (by decide)
        · rintro ⟨-, m, hm, h0, -⟩
          obtain rfl := Option.some.inj hm
          omega
        · rintro ⟨m, hm, h0, -⟩
          obtain rfl := Option.some.inj hm
          omega
      · have h0 : 0 ≤ n := not_lt.mp hn
        by_cases hbig : 2 ^ 64 ≤ stringSize * n ∨ (maxAlloc : Int) < stringSize * n
        · rw [foobarHandlerCall_of_large maxAlloc freshWriter r n ha h0 hbig]
          refine ⟨⟨?_, ?_⟩, ⟨fun _ => ⟨n, rfl, h0, hbig⟩, fun _ => rfl⟩, ?_⟩
          · rintro ⟨resp, calls, hEq, -⟩
            exact Option.noConfusion hEq
          · rintro ⟨-, m, hm, -, hov, hmax⟩
            obtain rfl := Option.some.inj hm
            rcases hbig with h1 | h1
            · exact absurd hov (not_lt.mpr h1)
            · exact absurd h1 (not_lt.mpr hmax)
          · intro hnot
            exact absurd ⟨hp, n, rfl, h0⟩ hnot
        · have hov : stringSize * n < 2 ^ 64 := not_le.mp (fun h1 => hbig (Or.inl h1))
          have hmax : stringSize * n ≤ (maxAlloc : Int) :=
            not_lt.mp (fun h1 => hbig (Or.inr h1))
          have hfit : ∀ m : Int, Atoi (r.query.Get "length") = some m → 0 ≤ m →
              stringSize * m < 2 ^ 64 ∧ stringSize * m ≤ (maxAlloc : Int) := by
            intro m hm _
            rw [ha] at hm
            obtain rfl := Option.some.inj hm
            exact ⟨hov, hmax⟩
          rw [foobarHandlerCall_of_fits maxAlloc freshWriter r hfit,
            foobarHandler_ok r n ha h0]
          refine ⟨⟨fun _ => ⟨hp, n, rfl, h0, hov, hmax⟩, fun _ => ⟨_, _, rfl, rfl⟩⟩,
            ⟨fun h => Option.noConfusion h, ?_⟩, ?_⟩
          · rintro ⟨m, hm, -, hb⟩
            obtain rfl := Option.some.inj hm
            exact absurd hb hbig
          · intro hnot
            exact absurd ⟨hp, n, rfl, h0⟩ hnot

/-- Instance of `foobarHandlerCall_status` at the request `length=abc` under
the limit of a 64-bit platform. -/
theorem foobarHandlerCall_status_witness :
    ∃ (resp : ResponseWriter) (calls : List Int),
      foobarHandlerCall maxAlloc64 freshWriter ⟨[("length", ["abc"])]⟩ = some (resp, calls) ∧
        resp.status = some 400 ∧
        (resp.body = "missing parameter: length\n" ∨
          resp.body = "invalid length\n" ∨
          ∃ (n : Int) (e : String),
            Atoi (Values.Get [("length", ["abc"])] "length") = some n ∧
            SequenceCall maxAlloc64 n = some ([], some e) ∧
            resp.body = "failed to compute sequence: " ++ e ++ "\n") :=
  (foobarHandlerCall_status maxAlloc64 ⟨[("length", ["abc"])]⟩).2.2 (by
    rintro ⟨_, n, hn, _⟩
    have h0 : Atoi (Values.Get [("length", ["abc"])] "length") = none := by decide
    rw [h0] at hn
    exact Option.noConfusion hn)

/-- C13, as stated, fails: for the request with an empty `length` parameter
the body is not the bare message `missing parameter: length`. -/
theorem foobarHandler_missing_not_bare_message :
    ¬ ((foobarHandler freshWriter ⟨[("length", [""])]⟩).1.status = some 400 ∧
        (foobarHandler freshWriter ⟨[("length", [""])]⟩).1.body =
          "missing parameter: length" ∧
        (foobarHandler freshWriter ⟨[("length", [""])]⟩).2 = []) := by
  decide

/-- C13, amended: when the `length` parameter is absent or empty, the
status is 400, the body is `missing parameter: length` followed by a
newline, and `Sequence` is not called. -/
theorem foobarHandler_missing_parameter (r : Request) (h : r.query.Get "length" = "") :
    (foobarHandler freshWriter r).1.status = some 400 ∧
      (foobarHandler freshWriter r).1.body = "missing parameter: length\n" ∧
      (foobarHandler freshWriter r).2 = [] := by
  rw [foobarHandler_missing r h]
  exact ⟨rfl, rfl, rfl⟩

/-- Instance of `foobarHandler_missing_parameter` at a request with another
parameter only. -/
theorem foobarHandler_missing_parameter_witness :
    (foobarHandler freshWriter ⟨[("size", ["3"])]⟩).1.status = some 400 ∧
      (foobarHandler freshWriter ⟨[("size", ["3"])]⟩).1.body =
        "missing parameter: length\n" ∧
      (foobarHandler freshWriter ⟨[("size", ["3"])]⟩).2 = [] :=
  foobarHandler_missing_parameter ⟨[("size", ["3"])]⟩ (by decide)

/-- C14, as stated, fails: for the request `length=abc` the body is not the
bare message `invalid length`. -/
theorem foobarHandler_invalid_not_bare_message :
    ¬ ((foobarHandler freshWriter ⟨[("length", ["abc"])]⟩).1.status = some 400 ∧
        (foobarHandler freshWriter ⟨[("length", ["abc"])]⟩).1.body = "invalid length" ∧
        (foobarHandler freshWriter ⟨[("length", ["abc"])]⟩).2 = []) := by
  decide

/-- C14, amended: when the `length` parameter is non-empty and `Atoi`
rejects it, the status is 400, the body is `invalid length` followed by a
newline, and `Sequence` is not called. -/
theorem foobarHandler_invalid_length (r : Request) (h : r.query.Get "length" ≠ "")
    (ha : Atoi (r.query.Get "length") = none) :
    (foobarHandler freshWriter r).1.status = some 400 ∧
      (foobarHandler freshWriter r).1.body = "invalid length\n" ∧
      (foobarHandler freshWriter r).2 = [] := by
  rw [foobarHandler_invalid r h ha]
  exact ⟨rfl, rfl, rfl⟩

/-- Instance of `foobarHandler_invalid_length` at the request `length=1.5`. -/
theorem foobarHandler_invalid_length_witness :
    (foobarHandler freshWriter ⟨[("length", ["1.5"])]⟩).1.status = some 400 ∧
      (foobarHandler freshWriter ⟨[("length", ["1.5"])]⟩).1.body = "invalid length\n" ∧
      (foobarHandler freshWriter ⟨[("length", ["1.5"])]⟩).2 = [] :=
  foobarHandler_invalid_length ⟨[("length", ["1.5"])]⟩ (by decide) (by decide)

/-- C15, as stated, fails: for the request `length=-3` the body is not
`failed to compute sequence: ` followed by the message of `Sequence` alone. -/
theorem foobarHandler_negative_not_bare_message :
    ¬ ((foobarHandler freshWriter ⟨[("length", ["-3"])]⟩).1.status = some 400 ∧
        (foobarHandler freshWriter ⟨[("length", ["-3"])]⟩).1.body =
          "failed to compute sequence: length is negative") := by
  decide

/-- C15, amended: when the `length` parameter is a negative integer `n`, the
status is 400 and the body is `failed to compute sequence: ` followed by the
error message of `Sequence n`, which is `length is negative`, and a newline. -/
theorem foobarHandler_negative_length (r : Request) (n : Int)
    (ha : Atoi (r.query.Get "length") = some n) (hn : n < 0) :
    (foobarHandler freshWriter r).1.status = some 400 ∧
      (Sequence n).2 = some "length is negative" ∧
      (foobarHandler freshWriter r).1.body =
        "failed to compute sequence: " ++ "length is negative" ++ "\n" := by
  have hbody : ("failed to compute sequence: length is negative\n" : String) =
      "failed to compute sequence: " ++ "length is negative" ++ "\n" := by decide
  rw [foobarHandler_negative r n ha hn, Sequence_of_neg n hn]
  exact ⟨rfl, rfl, hbody⟩

/-- Instance of `foobarHandler_negative_length` at the request `length=-12`. -/
theorem foobarHandler_negative_length_witness :
    (foobarHandler freshWriter ⟨[("length", ["-12"])]⟩).1.status = some 400 ∧
      (Sequence (-12)).2 = some "length is negative" ∧
      (foobarHandler freshWriter ⟨[("length", ["-12"])]⟩).1.body =
        "failed to compute sequence: " ++ "length is negative" ++ "\n" :=
  foobarHandler_negative_length ⟨[("length", ["-12"])]⟩ (-12) (by decide) (by decide)

/-- C17: for every request, `healthHandler` responds with status 200 and the
body `Server is healthy :)` followed by exactly one newline. -/
theorem healthHandler_response (r : Request) :
    healthHandler freshWriter r = ⟨some 200, "Server is healthy :)" ++ "\n"⟩ ∧
      (healthHandler freshWriter r).body.data.count (Char.ofNat 10) = 1 := by
  simp only [healthHandler]
  constructor <;> decide

/-! Section: Where the keywords occur -/

/-- C18: at every position `1 ≤ i ≤ length` the element is `foobar` exactly
when 15 divides `i`, `bar` exactly when 7 divides `i` and 15 does not, `foo`
exactly when 3 divides `i` and neither 5 nor 7 does; the decimal string of
`i` is none of the three keywords. -/
theorem Sequence_keyword_iff (length i : Int) (h1 : 1 ≤ i) (h2 : i ≤ length) :
    (elementAt (Sequence length).1 i = some "foobar" ↔ (15 : Int) ∣ i) ∧
      (elementAt (Sequence length).1 i = some "bar" ↔ ((7 : Int) ∣ i ∧ ¬ (15 : Int) ∣ i)) ∧
      (elementAt (Sequence length).1 i = some "foo" ↔
        ((3 : Int) ∣ i ∧ ¬ (5 : Int) ∣ i ∧ ¬ (7 : Int) ∣ i)) ∧
      (Itoa i ≠ "foobar" ∧ Itoa i ≠ "bar" ∧ Itoa i ≠ "foo") := by
  have hI : Itoa i ≠ "foobar" ∧ Itoa i ≠ "bar" ∧ Itoa i ≠ "foo" := by
    apply digits_ne_keyword
    rw [Itoa_of_pos i h1]
    exact repr_isDigit _
  obtain ⟨hI1, hI2, hI3⟩ := hI
  have h15 : (15 : Int) ∣ i ↔ ((3 : Int) ∣ i ∧ (5 : Int) ∣ i) := by
    constructor
    · intro h
      constructor <;> omega
    · rintro ⟨h3, h5⟩
      omega
  rw [elementAt_Sequence length i h1 h2, switchToken_dvd, h15]
  refine ⟨?_, ?_, ?_, hI1, hI2, hI3⟩
  · by_cases h3 : (3 : Int) ∣ i <;> by_cases h5 : (5 : Int) ∣ i <;>
      by_cases h7 : (7 : Int) ∣ i <;> simp [h3, h5, h7, hI1]
  · by_cases h3 : (3 : Int) ∣ i <;> by_cases h5 : (5 : Int) ∣ i <;>
      by_cases h7 : (7 : Int) ∣ i <;> simp [h3, h5, h7, hI2]
  · by_cases h3 : (3 : Int) ∣ i <;> by_cases h5 : (5 : Int) ∣ i <;>
      by_cases h7 : (7 : Int) ∣ i <;> simp [h3, h5, h7, hI3]

/-- Instance of `Sequence_keyword_iff` at position 21 of a sequence of 30. -/
theorem Sequence_keyword_iff_witness :
    (elementAt (Sequence 30).1 21 = some "foobar" ↔ (15 : Int) ∣ 21) ∧
      (elementAt (Sequence 30).1 21 = some "bar" ↔ ((7 : Int) ∣ 21 ∧ ¬ (15 : Int) ∣ 21)) ∧
      (elementAt (Sequence 30).1 21 = some "foo" ↔
        ((3 : Int) ∣ 21 ∧ ¬ (5 : Int) ∣ 21 ∧ ¬ (7 : Int) ∣ 21)) ∧
      (Itoa 21 ≠ "foobar" ∧ Itoa 21 ≠ "bar" ∧ Itoa 21 ≠ "foo") :=
  Sequence_keyword_iff 30 21 (by decide) (by decide)

/-! Section: Printing a slice and reading it back -/

/-- The accumulator loop of `String.intercalate` only appends to its
accumulator. -/
theorem intercalate_go_append (s : String) : ∀ (l : List String) (x acc : String),
    String.intercalate.go (x ++ acc) s l = x ++ String.intercalate.go acc s l := by
  intro l
  induction l with
  | nil => intro x acc; rfl
  | cons a rest ih =>
    intro x acc
    simp only [String.intercalate.go]
    rw [String.append_assoc, String.append_assoc, ih, String.append_assoc]

/-- From the second element on, `printElems` is the accumulator loop of
`String.intercalate` with a space as separator. -/
theorem printElems_succ : ∀ (l : List String) (buf : String) (i : Nat),
    printElems buf (i + 1) l = String.intercalate.go buf " " l := by
  intro l
  induction l with
  | nil => intro buf i; rfl
  | cons a rest ih =>
    intro buf i
    simp only [printElems, String.intercalate.go, Nat.succ_pos, if_true, ih]

/-- A slice printed with `%s` is its elements, separated by single spaces,
between square brackets. -/
theorem Sprintf_s_eq (seq : List String) :
    Sprintf_s seq = "[" ++ " ".intercalate seq ++ "]" := by
  cases seq with
  | nil => decide
  | cons a rest =>
    simp only [Sprintf_s, printElems, Nat.lt_irrefl, if_false, String.intercalate,
      printElems_succ, intercalate_go_append]

/-- Intercalating a one-character separator puts it in front of every element
but the first. -/
theorem intercalate_cons (sep : Char) (a : List Char) (rest : List (List Char)) :
    List.intercalate [sep] (a :: rest) = a ++ (rest.map (fun x => sep :: x)).flatten := by
  induction rest generalizing a with
  | nil => simp [List.intercalate]
  | cons b rest ih =>
    have h := ih b
    simp only [List.intercalate, List.intersperse] at h ⊢
    simp [h]

/-- The characters written by `printElems` from the second element on. -/
theorem printElems_data : ∀ (l : List String) (buf : String) (i : Nat),
    (printElems buf (i + 1) l).data =
      buf.data ++ (l.map (fun a : String => ' ' :: a.data)).flatten := by
  intro l
  induction l with
  | nil => intro buf i; simp [printElems]
  | cons a rest ih =>
    intro buf i
    simp only [printElems, Nat.succ_pos, if_true, ih, String.data_append, List.map_cons,
      List.flatten_cons, List.append_assoc]
    rfl

/-- The characters of a slice printed with `%s`. -/
theorem Sprintf_s_data (seq : List String) :
    (Sprintf_s seq).data =
      '[' :: (List.intercalate [' '] (seq.map String.data) ++ [']']) := by
  cases seq with
  | nil => rfl
  | cons a rest =>
    rw [List.map_cons, intercalate_cons]
    simp only [Sprintf_s, printElems, Nat.lt_irrefl, if_false, String.data_append,
      printElems_data, List.map_map]
    rfl

/-- Reading back a printed slice that is not empty and whose elements contain
no space yields the slice. -/
theorem splitBody_Sprintf_s (seq : List String) (hne : seq ≠ [])
    (hsp : ∀ t ∈ seq, ' ' ∉ t.data) : splitBody (Sprintf_s seq) = seq := by
  have hx : ∀ l ∈ seq.map String.data, ' ' ∉ l := by
    intro l hl
    obtain ⟨t, ht, rfl⟩ := List.mem_map.mp hl
    exact hsp t ht
  have hls : seq.map String.data ≠ [] := by simpa using hne
  have hmk : ∀ l : List String, (l.map String.data).map String.mk = l := by
    intro l
    induction l with
    | nil => rfl
    | cons a rest ih => rw [List.map_cons, List.map_cons, ih]
  simp only [splitBody, Sprintf_s_data, List.drop_succ_cons, List.drop_zero,
    List.dropLast_concat, List.splitOn_intercalate _ ' ' hx hls, hmk]

/-- Every character of a printed slice is a bracket, a space or a character
of one of its elements. -/
theorem mem_Sprintf_s (seq : List String) (c : Char) (hc : c ∈ (Sprintf_s seq).data) :
    c = '[' ∨ c = ']' ∨ c = ' ' ∨ ∃ t ∈ seq, c ∈ t.data := by
  cases seq with
  | nil =>
    have h : c ∈ ['[', ']'] := hc
    simp at h
    tauto
  | cons a rest =>
    rw [Sprintf_s_data, List.map_cons, intercalate_cons] at hc
    simp only [List.mem_cons, List.mem_append, List.mem_flatten, List.mem_map,
      List.mem_singleton, List.not_mem_nil, or_false] at hc
    rcases hc with h | (h | ⟨l, ⟨x, ⟨t, ht, rfl⟩, rfl⟩, h⟩) | h
    · exact Or.inl h
    · exact Or.inr (Or.inr (Or.inr ⟨a, List.mem_cons_self _ _, h⟩))
    · rcases List.mem_cons.mp h with h | h
      · exact Or.inr (Or.inr (Or.inl h))
      · exact Or.inr (Or.inr (Or.inr ⟨t, List.mem_cons_of_mem _ ht, h⟩))
    · exact Or.inr (Or.inl h)

/-- Every token of a generated sequence is non-empty and made of letters and
digits only. -/
theorem Sequence_token_alphanum (n : Int) (t : String) (ht : t ∈ (Sequence n).1) :
    t.data ≠ [] ∧ ∀ c ∈ t.data, c.isAlphanum = true := by
  by_cases hn : n < 0
  · rw [Sequence_of_neg n hn] at ht
    exact absurd ht (List.not_mem_nil t)
  · rw [Sequence_of_nonneg n (not_lt.mp hn)] at ht
    obtain ⟨k, _, rfl⟩ := List.mem_map.mp ht
    rcases switchToken_cases ((k : Int) + 1) (by omega) with h | h | h | ⟨h, hne, hd⟩
    · rw [h]; decide
    · rw [h]; decide
    · rw [h]; decide
    · rw [h]
      refine ⟨hne, fun c hc => ?_⟩
      simp [Char.isAlphanum, hd c hc]

/-- A token of a generated sequence is not the empty string and contains no
character that is neither a letter nor a digit. -/
theorem Sequence_token_clean (n : Int) (t : String) (ht : t ∈ (Sequence n).1)
    (c : Char) (hc : c.isAlphanum = false) : t ≠ "" ∧ c ∉ t.data := by
  obtain ⟨hne, hall⟩ := Sequence_token_alphanum n t ht
  constructor
  · intro h
    exact hne (by rw [h])
  · intro hmem
    rw [hall c hmem] at hc
    exact Bool.noConfusion hc

/-- The number of elements of the sequence generated for a length `≥ 0`. -/
theorem Sequence_length_toNat (n : Int) (hn : 0 ≤ n) : (Sequence n).1.length = n.toNat := by
  rw [Sequence_of_nonneg n hn]
  simp

/-- Two generated sequences that print alike were generated for the same
length. -/
theorem Sprintf_s_Sequence_injective (m n : Int) (hm : 0 ≤ m) (hn : 0 ≤ n)
    (h : Sprintf_s (Sequence m).1 = Sprintf_s (Sequence n).1) : m = n := by
  have hsp : ∀ k : Int, ∀ t ∈ (Sequence k).1, ' ' ∉ t.data := fun k t ht =>
    (Sequence_token_clean k t ht ' ' (by decide)).2
  have hnil : ∀ k : Int, (Sequence k).1 ≠ [] →
      Sprintf_s (Sequence k).1 ≠ Sprintf_s [] := by
    intro k hk hEq
    have h1 := splitBody_Sprintf_s (Sequence k).1 hk (hsp k)
    rw [hEq] at h1
    have h2 : splitBody (Sprintf_s []) = [""] := by decide
    rw [h2] at h1
    have hmem : "" ∈ (Sequence k).1 := by rw [← h1]; exact List.mem_cons_self _ _
    exact (Sequence_token_clean k "" hmem ' ' (by decide)).1 rfl
  have hlen : (Sequence m).1.length = (Sequence n).1.length := by
    by_cases h1 : (Sequence m).1 = []
    · by_cases h2 : (Sequence n).1 = []
      · rw [h1, h2]
      · rw [h1] at h
        exact absurd h.symm (hnil n h2)
    · by_cases h2 : (Sequence n).1 = []
      · rw [h2] at h
        exact absurd h (hnil m h1)
      · have e1 := splitBody_Sprintf_s (Sequence m).1 h1 (hsp m)
        have e2 := splitBody_Sprintf_s (Sequence n).1 h2 (hsp n)
        rw [h, e2] at e1
        rw [e1]
  rw [Sequence_length_toNat m hm, Sequence_length_toNat n hn] at hlen
  omega

/-! Section: The success response -/

/-- C16, as stated, fails: under the allocation limit of a 64-bit platform
the request `length=9223372036854775807`, whose parameter parses to an
integer `≥ 0`, gets no response with status 200 (the handler panics in
`make`). -/
theorem foobarHandlerCall_huge_length_no_response :
    Atoi (Values.Get [("length", ["9223372036854775807"])] "length") =
        some 9223372036854775807 ∧
      ¬ ∃ (resp : ResponseWriter) (calls : List Int),
          foobarHandlerCall maxAlloc64 freshWriter
              ⟨[("length", ["9223372036854775807"])]⟩ = some (resp, calls) ∧
            resp.status = some 200 := by
  refine ⟨by decide, ?_⟩
  rw [foobarHandlerCall_of_large maxAlloc64 freshWriter
    ⟨[("length", ["9223372036854775807"])]⟩ 9223372036854775807 (by decide) (by decide)
    (by decide)]
  rintro ⟨resp, calls, h, _⟩
  exact Option.noConfusion h

/-- C16, amended: when the `length` parameter is an integer `n ≥ 0` that
`make` can allocate, the status is 200 and the body is the tokens of the
sequence returned by `Sequence`, in order, separated by single spaces,
between square brackets, without any newline; every request whose parameter
denotes the same `n` gets the same response; `length=5` gives
`[1 2 foo 4 5]` and `length=0` gives `[]`. -/
theorem foobarHandlerCall_success (maxAlloc : Nat) (r : Request) (n : Int)
    (ha : Atoi (r.query.Get "length") = some n) (hn : 0 ≤ n)
    (hov : stringSize * n < 2 ^ 64) (hmax : stringSize * n ≤ (maxAlloc : Int)) :
    ∃ seq : List String, SequenceCall maxAlloc n = some (seq, none) ∧
      foobarHandlerCall maxAlloc freshWriter r =
        some (⟨some 200, "[" ++ " ".intercalate seq ++ "]"⟩, [n]) ∧
      Char.ofNat 10 ∉ ("[" ++ " ".intercalate seq ++ "]").data ∧
      (∀ r2 : Request, Atoi (r2.query.Get "length") = some n →
        foobarHandlerCall maxAlloc freshWriter r2 = foobarHandlerCall maxAlloc freshWriter r) ∧
      foobarHandlerCall maxAlloc64 freshWriter ⟨[("length", ["5"])]⟩ =
        some (⟨some 200, "[1 2 foo 4 5]"⟩, [5]) ∧
      foobarHandlerCall maxAlloc64 freshWriter ⟨[("length", ["0"])]⟩ =
        some (⟨some 200, "[]"⟩, [0]) := by
  have hfit : ∀ (q : Request), Atoi (q.query.Get "length") = some n →
      ∀ m : Int, Atoi (q.query.Get "length") = some m → 0 ≤ m →
        stringSize * m < 2 ^ 64 ∧ stringSize * m ≤ (maxAlloc : Int) := by
    intro q hq m hm _
    rw [hq] at hm
    obtain rfl := Option.some.inj hm
    exact ⟨hov, hmax⟩
  have hcall : ∀ (q : Request), Atoi (q.query.Get "length") = some n →
      foobarHandlerCall maxAlloc freshWriter q =
        some (⟨some 200, "[" ++ " ".intercalate (Sequence n).1 ++ "]"⟩, [n]) := by
    intro q hq
    rw [foobarHandlerCall_of_fits maxAlloc freshWriter q (hfit q hq), foobarHandler_ok q n hq hn,
      Sprintf_s_eq]
  refine ⟨(Sequence n).1, ?_, hcall r ha, ?_, ?_, by decide, by decide⟩
  · rw [SequenceCall_of_fits maxAlloc n hn hov hmax, Sequence_of_nonneg n hn]
  · rw [← Sprintf_s_eq]
    intro hmem
    rcases mem_Sprintf_s _ _ hmem with h | h | h | ⟨t, ht, hc⟩
    · revert h; decide
    · revert h; decide
    · revert h; decide
    · exact (Sequence_token_clean n t ht (Char.ofNat 10) (by decide)).2 hc
  · intro r2 h2
    rw [hcall r2 h2, hcall r ha]

/-- Instance of `foobarHandlerCall_success` at the requests `length=5` and
`length=+05` under the limit of a 64-bit platform. -/
theorem foobarHandlerCall_success_witness :
    ∃ seq : List String, SequenceCall maxAlloc64 5 = some (seq, none) ∧
      foobarHandlerCall maxAlloc64 freshWriter ⟨[("length", ["5"])]⟩ =
        some (⟨some 200, "[" ++ " ".intercalate seq ++ "]"⟩, [5]) ∧
      foobarHandlerCall maxAlloc64 freshWriter ⟨[("length", ["+05"])]⟩ =
        foobarHandlerCall maxAlloc64 freshWriter ⟨[("length", ["5"])]⟩ :=
  have ⟨seq, h1, h2, _, h4, _⟩ :=
    foobarHandlerCall_success maxAlloc64 ⟨[("length", ["5"])]⟩ 5 (by decide) (by decide)
      (by decide) (by decide)
  ⟨seq, h1, h2, h4 ⟨[("length", ["+05"])]⟩ (by decide)⟩

/-- C19: when the `length` parameter is an integer `n ≥ 0`, every token of
`Sequence n` is non-empty and contains no space and no square bracket; for
`n ≥ 1`, stripping the brackets of the body and splitting at the spaces gives
back `Sequence n`; and a request for another length `m ≥ 0` gets another
body. -/
theorem foobarHandler_body_unambiguous (r : Request) (n : Int)
    (ha : Atoi (r.query.Get "length") = some n) (hn : 0 ≤ n) :
    (∀ t ∈ (Sequence n).1, t ≠ "" ∧ ' ' ∉ t.data ∧ '[' ∉ t.data ∧ ']' ∉ t.data) ∧
      (1 ≤ n → splitBody (foobarHandler freshWriter r).1.body = (Sequence n).1) ∧
      (∀ (r2 : Request) (m : Int), Atoi (r2.query.Get "length") = some m → 0 ≤ m →
        m ≠ n →
        (foobarHandler freshWriter r2).1.body ≠ (foobarHandler freshWriter r).1.body) := by
  rw [foobarHandler_ok r n ha hn]
  refine ⟨?_, ?_, ?_⟩
  · intro t ht
    exact ⟨(Sequence_token_clean n t ht ' ' (by decide)).1,
      (Sequence_token_clean n t ht ' ' (by decide)).2,
      (Sequence_token_clean n t ht '[' (by decide)).2,
      (Sequence_token_clean n t ht ']' (by decide)).2⟩
  · intro h1
    apply splitBody_Sprintf_s
    · intro hnil
      have hlen := Sequence_length_toNat n hn
      rw [hnil] at hlen
      simp only [List.length_nil] at hlen
      omega
    · intro t ht
      exact (Sequence_token_clean n t ht ' ' (by decide)).2
  · intro r2 m h2 hm hne hEq
    rw [foobarHandler_ok r2 m h2 hm] at hEq
    exact hne (Sprintf_s_Sequence_injective m n hm hn hEq)

/-- Instance of `foobarHandler_body_unambiguous` at the requests `length=4`
and `length=3`. -/
theorem foobarHandler_body_unambiguous_witness :
    (∀ t ∈ (Sequence 4).1, t ≠ "" ∧ ' ' ∉ t.data ∧ '[' ∉ t.data ∧ ']' ∉ t.data) ∧
      splitBody (foobarHandler freshWriter ⟨[("length", ["4"])]⟩).1.body = (Sequence 4).1 ∧
      (foobarHandler freshWriter ⟨[("length", ["3"])]⟩).1.body ≠
        (foobarHandler freshWriter ⟨[("length", ["4"])]⟩).1.body :=
  have h := foobarHandler_body_unambiguous ⟨[("length", ["4"])]⟩ 4 (by decide) (by decide)
  ⟨h.1, h.2.1 (by decide), h.2.2 ⟨[("length", ["3"])]⟩ 3 (by decide) (by decide) (by decide)⟩

end Foobar
